import Mathlib

/-!
# Verification of the irmin-benchs plotting scripts

This file embeds the data-shaping pipeline of the two plotting scripts
(`diet/plot.py` and `disk/plot.py`) and proves properties of it.

Two levels of modelling are used:

* A JSON-level model (`J`, `dietLoadJ`, `diskLoadJ`) that follows the Python
  scripts' load loops operation by operation, including Python's sequence
  unpacking (`for [kind, measures] in ...`), dict `setdefault` semantics
  (first-inserted key kept, cross-type `1 == True` key equality,
  unhashability of lists), and Python's `*` on non-numeric values
  (string/list repetition, booleans as 0/1).  JSON objects do not occur in
  the benchmark documents and are omitted from `J`.

* A typed-level model (`diskAgg`, `dietAgg`, ...) of the same loops
  restricted to well-typed records in the two documented input formats
  (metric names as strings, `n` an integer, `value` a number, modelled
  exactly as a rational).  This is the level at which the aggregation,
  sorting and regression properties are stated.

Python's `list.sort()` on `(n, v)` tuples is a stable sort under the
lexicographic order of the tuples; it is modelled with
`List.insertionSort pyLe`, which is likewise stable.  sklearn's
`LinearRegression` with its defaults (`fit_intercept=True`, no
regularization) centers the data and takes the minimum-norm least-squares
solution; for a single feature this is the closed form embedded in
`linfit`, with the zero-variance case resolved to slope 0 by the
minimum-norm convention and the empty-input case an error.
-/

/-- Python-level errors that the load loops can raise. -/
inductive PyErr where
  | typeError
  | valueError
  | keyError
deriving DecidableEq

/-- JSON values as produced by `json.load`, without objects (the benchmark
documents contain none). -/
inductive J where
  | null
  | bool (b : Bool)
  | num (q : ℚ)
  | str (s : String)
  | arr (l : List J)

/-- Python iteration: lists yield their elements, strings their characters;
numbers, booleans and `None` are not iterable. -/
def pyIter : J → Option (List J)
  | .arr l => some l
  | .str s => some (s.toList.map fun c => J.str (String.mk [c]))
  | _ => none

/-- Python sequence unpacking `a, b = j`: `TypeError` when `j` is not
iterable, `ValueError` when it does not yield exactly two items. -/
def unpack2 (j : J) : Except PyErr (J × J) :=
  match pyIter j with
  | none => .error .typeError
  | some [a, b] => .ok (a, b)
  | some _ => .error .valueError

/-- Python sequence unpacking `a, b, c = j`. -/
def unpack3 (j : J) : Except PyErr (J × J × J) :=
  match pyIter j with
  | none => .error .typeError
  | some [a, b, c] => .ok (a, b, c)
  | some _ => .error .valueError

/-- Whether a value may be used as a `dict` key (lists are unhashable). -/
def pyHashable : J → Bool
  | .arr _ => false
  | _ => true

/-- Python `==` on the hashable JSON values, as used for dict keys.
Note `True == 1` and `False == 0` hold across types in Python. -/
def pyKeyEq : J → J → Bool
  | .null, .null => true
  | .bool a, .bool b => a == b
  | .bool a, .num b => decide ((if a then (1 : ℚ) else 0) = b)
  | .num a, .bool b => decide (a = if b then (1 : ℚ) else 0)
  | .num a, .num b => decide (a = b)
  | .str a, .str b => a == b
  | _, _ => false

/-- Lookup in an insertion-ordered dict modelled as an association list,
using Python key equality. -/
def lookupMapJ {γ : Type} : List (J × γ) → J → Option γ
  | [], _ => none
  | (k', g) :: t, k => if pyKeyEq k' k then some g else lookupMapJ t k

/-- `d.setdefault(k, dflt)` followed by an in-place update `f` of the entry:
updates the first entry whose key equals `k` (keeping the stored key, as
Python dicts do), or appends a fresh entry `(k, f dflt)`. -/
def updMapJ {γ : Type} (f : γ → γ) (dflt : γ) : List (J × γ) → J → List (J × γ)
  | [], k => [(k, f dflt)]
  | (k', g) :: t, k =>
      if pyKeyEq k' k then (k', f g) :: t else (k', g) :: updMapJ f dflt t k

/-- Python `v * 1000`: numbers multiply, booleans coerce to 0/1, strings and
lists repeat, `None` raises `TypeError`. -/
def pyMul1000 : J → Except PyErr J
  | .num q => .ok (.num (q * 1000))
  | .bool b => .ok (.num (if b then 1000 else 0))
  | .str s => .ok (.str (String.join (List.replicate 1000 s)))
  | .arr l => .ok (.arr (List.replicate 1000 l).flatten)
  | .null => .error .typeError

/-- The map built by `disk/plot.py`: metric key to list of `(n, v * 1000)`. -/
abbrev DiskMapJ := List (J × List (J × J))

/-- One iteration of the disk load loop
(`for [m, n, v] in json.load(file)` with
`series = data.setdefault(m, []); series.append((n, v * 1000))`). -/
def diskStepJ (data : DiskMapJ) (rec : J) : Except PyErr DiskMapJ := do
  let (m, n, v) ← unpack3 rec
  if pyHashable m then do
    let v' ← pyMul1000 v
    .ok (updMapJ (fun s => s ++ [(n, v')]) [] data m)
  else .error .typeError

/-- The whole disk load loop over a JSON document. -/
def diskLoadJ (doc : J) : Except PyErr DiskMapJ :=
  match pyIter doc with
  | none => .error .typeError
  | some records => records.foldlM diskStepJ []

/-- The two-level map built by `diet/plot.py`. -/
abbrev DietMapJ := List (J × List (J × List (J × J)))

/-- One iteration of the inner diet loop (`for [m, n, v] in measures` with
`series = sub_data.setdefault(m, []); series.append((n, v))`). -/
def dietInnerStepJ (sub : List (J × List (J × J))) (mrec : J) :
    Except PyErr (List (J × List (J × J))) := do
  let (m, n, v) ← unpack3 mrec
  if pyHashable m then
    .ok (updMapJ (fun s => s ++ [(n, v)]) [] sub m)
  else .error .typeError

/-- One iteration of the outer diet loop
(`for [kind, measures] in json.load(file)` with
`sub_data = data.setdefault(kind, {})` then the inner loop). -/
def dietStepJ (data : DietMapJ) (rec : J) : Except PyErr DietMapJ := do
  let (kind, measures) ← unpack2 rec
  if pyHashable kind then do
    let ms ← match pyIter measures with
      | none => Except.error PyErr.typeError
      | some ms => Except.ok ms
    let sub ← ms.foldlM dietInnerStepJ ((lookupMapJ data kind).getD [])
    .ok (updMapJ (fun _ => sub) [] data kind)
  else .error .typeError

/-- The whole diet load loop over a JSON document. -/
def dietLoadJ (doc : J) : Except PyErr DietMapJ :=
  match pyIter doc with
  | none => .error .typeError
  | some records => records.foldlM dietStepJ []

/-! ## Typed-level model

The documented input formats have string metric/kind names, integer `n` and
numeric `value`; reals are modelled exactly as rationals. -/

/-- One series: the list of `(n, value)` points for one metric. -/
abbrev Series := List (ℤ × ℚ)

/-- A well-typed disk document: a list of `(metric, n, value)` records. -/
abbrev DiskInput := List (String × ℤ × ℚ)

/-- A well-typed diet document: a list of `(kind, measures)` records. -/
abbrev DietInput := List (String × List (String × ℤ × ℚ))

/-- Association-list lookup with decidable key equality (an
insertion-ordered Python dict restricted to same-type keys). -/
def lookupA {α γ : Type} [DecidableEq α] : List (α × γ) → α → Option γ
  | [], _ => none
  | (k', g) :: t, k => if k' = k then some g else lookupA t k

/-- `setdefault`-and-update on a typed association list. -/
def updA {α γ : Type} [DecidableEq α] (f : γ → γ) (dflt : γ) :
    List (α × γ) → α → List (α × γ)
  | [], k => [(k, f dflt)]
  | (k', g) :: t, k =>
      if k' = k then (k', f g) :: t else (k', g) :: updA f dflt t k

/-- One aggregation step: route the record `kb` to the entry at its key,
updating the entry value with `upd` (starting from `dflt` for a new key). -/
def aggStep {α β γ : Type} [DecidableEq α] (upd : γ → β → γ) (dflt : γ)
    (acc : List (α × γ)) (kb : α × β) : List (α × γ) :=
  updA (fun g => upd g kb.2) dflt acc kb.1

/-- Aggregate a list of keyed records into an insertion-ordered map. -/
def aggBy {α β γ : Type} [DecidableEq α] (upd : γ → β → γ) (dflt : γ)
    (l : List (α × β)) : List (α × γ) :=
  l.foldl (aggStep upd dflt) []

/-- The values of the records of `l` whose key is `k`, in order. -/
def selKey {α β : Type} [DecidableEq α] (k : α) : List (α × β) → List β
  | [] => []
  | (k', b) :: t => if k' = k then b :: selKey k t else selKey k t

/-- The disk aggregation loop on well-typed records: each record
`(m, n, v)` appends `(n, v * 1000)` to the series at `m`. -/
def diskAgg (l : DiskInput) : List (String × Series) :=
  aggBy (fun s nv => s ++ [(nv.1, nv.2 * 1000)]) [] l

/-- The diet aggregation loop on well-typed records: each record
`(kind, measures)` folds its measures into the sub-map at `kind`, each
measure `(m, n, v)` appending `(n, v)` to the series at `m`. -/
def dietAgg (l : DietInput) : List (String × List (String × Series)) :=
  aggBy (fun sub ms => ms.foldl (aggStep (fun s nv => s ++ [nv]) []) sub) [] l

/-- The comparison Python's `list.sort()` uses on the `(n, v)` tuples:
lexicographic on the pair, i.e. by `n` first and by `v` on ties. -/
def pyLe (p q : ℤ × ℚ) : Prop :=
  p.1 < q.1 ∨ (p.1 = q.1 ∧ p.2 ≤ q.2)

instance : DecidableRel pyLe := fun p q =>
  inferInstanceAs (Decidable (p.1 < q.1 ∨ (p.1 = q.1 ∧ p.2 ≤ q.2)))

instance : IsTotal (ℤ × ℚ) pyLe :=
  ⟨fun a b => by
    rcases lt_trichotomy a.1 b.1 with h | h | h
    · exact Or.inl (Or.inl h)
    · rcases le_total a.2 b.2 with h2 | h2
      · exact Or.inl (Or.inr ⟨h, h2⟩)
      · exact Or.inr (Or.inr ⟨h.symm, h2⟩)
    · exact Or.inr (Or.inl h)⟩

instance : IsTrans (ℤ × ℚ) pyLe :=
  ⟨fun a b c hab hbc => by
    rcases hab with h1 | ⟨h1, h1'⟩ <;> rcases hbc with h2 | ⟨h2, h2'⟩
    · exact Or.inl (h1.trans h2)
    · exact Or.inl (h2 ▸ h1)
    · exact Or.inl (h1 ▸ h2)
    · exact Or.inr ⟨h1.trans h2, h1'.trans h2'⟩⟩

/-- Python's stable `list.sort()` on `(n, v)` tuples. -/
def pySort (s : Series) : Series :=
  List.insertionSort pyLe s

/-- The final disk `data` map: the aggregated map with every series sorted
in place (`for k in data: data[k].sort()`). -/
def diskData (l : DiskInput) : List (String × Series) :=
  (diskAgg l).map fun kv => (kv.1, pySort kv.2)

/-- The final diet `data` map with every series sorted in place. -/
def dietData (l : DietInput) : List (String × List (String × Series)) :=
  (dietAgg l).map fun ks => (ks.1, ks.2.map fun mv => (mv.1, pySort mv.2))

/-- Two-level lookup in the diet aggregated map. -/
def dietLookup (l : DietInput) (kind m : String) : Option Series :=
  (lookupA (dietAgg l) kind).bind fun sub => lookupA sub m

/-- Two-level lookup in the final sorted diet map. -/
def dietDataLookup (l : DietInput) (kind m : String) : Option Series :=
  (lookupA (dietData l) kind).bind fun sub => lookupA sub m

/-- Python dict subscription `data[key]`: `KeyError` when absent. -/
def getItem {α γ : Type} [DecidableEq α] (m : List (α × γ)) (k : α) :
    Except PyErr γ :=
  match lookupA m k with
  | some g => .ok g
  | none => .error .keyError

/-- The `(n, v * 1000)` pairs submitted to the disk aggregator under
metric `m`, in input order. -/
def diskPairs (l : DiskInput) (m : String) : Series :=
  (selKey m l).map fun nv => (nv.1, nv.2 * 1000)

/-- The `(n, v)` pairs submitted to the diet aggregator under
`(kind, m)`, in input order. -/
def dietPairs (l : DietInput) (kind m : String) : Series :=
  selKey m (selKey kind l).flatten

/-- Mean of the feature values (sklearn's centering step). -/
def lfMeanX (pts : List (ℚ × ℚ)) : ℚ :=
  (pts.map Prod.fst).sum / pts.length

/-- Mean of the target values (sklearn's centering step). -/
def lfMeanY (pts : List (ℚ × ℚ)) : ℚ :=
  (pts.map Prod.snd).sum / pts.length

/-- Centered second moment `Σ (x - x̄)²` of the feature. -/
def lfSxx (pts : List (ℚ × ℚ)) : ℚ :=
  (pts.map fun p => (p.1 - lfMeanX pts) ^ 2).sum

/-- Centered cross moment `Σ (x - x̄)(y - ȳ)`. -/
def lfSxy (pts : List (ℚ × ℚ)) : ℚ :=
  (pts.map fun p => (p.1 - lfMeanX pts) * (p.2 - lfMeanY pts)).sum

/-- The fitted coefficient: the least-squares solution `Sxy / Sxx` on the
centered data, and 0 (the minimum-norm solution `lstsq` returns) when the
centered feature is identically zero. -/
def lfSlope (pts : List (ℚ × ℚ)) : ℚ :=
  if lfSxx pts = 0 then 0 else lfSxy pts / lfSxx pts

/-- sklearn's `LinearRegression().fit` for a single feature, with its
defaults (`fit_intercept=True`, no regularization): center the data, take
the minimum-norm least-squares solution, `intercept = ȳ - slope * x̄`.
Errors on an empty sample. -/
def linfit (pts : List (ℚ × ℚ)) : Option (ℚ × ℚ) :=
  if pts = [] then none
  else some (lfSlope pts, lfMeanY pts - lfSlope pts * lfMeanX pts)

/-! ## Lemmas about the typed aggregation -/

/-- The entry value an aggregation produces from the records `bs` at one
key: absent when no record carried the key, otherwise the fold of `upd`. -/
def aggVal {β γ : Type} (upd : γ → β → γ) (dflt : γ) : List β → Option γ
  | [] => none
  | b :: bs => some ((b :: bs).foldl upd dflt)

theorem lookupA_updA {α γ : Type} [DecidableEq α] (f : γ → γ) (dflt : γ)
    (acc : List (α × γ)) (k q : α) :
    lookupA (updA f dflt acc k) q =
      if q = k then some (f ((lookupA acc k).getD dflt)) else lookupA acc q := by
  induction acc with
  | nil =>
      by_cases h : q = k
      · simp [updA, lookupA, h]
      · simp [updA, lookupA, h, Ne.symm h]
  | cons hd t ih =>
      obtain ⟨k', g⟩ := hd
      by_cases hk : k' = k
      · subst hk
        by_cases hq : q = k'
        · simp [updA, lookupA, hq]
        · simp [updA, lookupA, hq, Ne.symm hq]
      · by_cases hq : k' = q
        · subst hq
          simp [updA, lookupA, hk]
        · simp [updA, lookupA, hk, hq, ih]

/-- Folding aggregation steps over `l` extends the entry at `k` by folding
`upd` over exactly the records of `l` keyed `k` (present-key case). -/
theorem lookupA_foldl_aggStep_some {α β γ : Type} [DecidableEq α]
    (upd : γ → β → γ) (dflt : γ) :
    ∀ (l : List (α × β)) (acc : List (α × γ)) (k : α) (g : γ),
      lookupA acc k = some g →
      lookupA (l.foldl (aggStep upd dflt) acc) k =
        some ((selKey k l).foldl upd g) := by
  intro l
  induction l with
  | nil => intro acc k g h; simpa [selKey] using h
  | cons kb t ih =>
      intro acc k g h
      obtain ⟨k₀, b⟩ := kb
      simp only [List.foldl_cons]
      by_cases hk : k₀ = k
      · subst hk
        have hacc : lookupA (aggStep upd dflt acc (k₀, b)) k₀ = some (upd g b) := by
          simp [aggStep, lookupA_updA, h]
        have := ih _ _ _ hacc
        simpa [selKey] using this
      · have hacc : lookupA (aggStep upd dflt acc (k₀, b)) k = some g := by
          simp [aggStep, lookupA_updA, Ne.symm hk, h]
        have := ih _ _ _ hacc
        simpa [selKey, hk] using this

/-- Folding aggregation steps over `l` creates the entry at `k` exactly when
some record of `l` is keyed `k`, with value the fold of `upd` over those
records starting from `dflt` (absent-key case). -/
theorem lookupA_foldl_aggStep_none {α β γ : Type} [DecidableEq α]
    (upd : γ → β → γ) (dflt : γ) :
    ∀ (l : List (α × β)) (acc : List (α × γ)) (k : α),
      lookupA acc k = none →
      lookupA (l.foldl (aggStep upd dflt) acc) k =
        aggVal upd dflt (selKey k l) := by
  intro l
  induction l with
  | nil => intro acc k h; simpa [selKey, aggVal] using h
  | cons kb t ih =>
      intro acc k h
      obtain ⟨k₀, b⟩ := kb
      simp only [List.foldl_cons]
      by_cases hk : k₀ = k
      · subst hk
        have hacc : lookupA (aggStep upd dflt acc (k₀, b)) k₀ = some (upd dflt b) := by
          simp [aggStep, lookupA_updA, h]
        have := lookupA_foldl_aggStep_some upd dflt t _ _ _ hacc
        simpa [selKey, aggVal] using this
      · have hacc : lookupA (aggStep upd dflt acc (k₀, b)) k = none := by
          simp [aggStep, lookupA_updA, Ne.symm hk, h]
        have := ih _ _ hacc
        simpa [selKey, hk] using this

/-- Lookup in an aggregated map, closed form. -/
theorem lookupA_aggBy {α β γ : Type} [DecidableEq α]
    (upd : γ → β → γ) (dflt : γ) (l : List (α × β)) (k : α) :
    lookupA (aggBy upd dflt l) k = aggVal upd dflt (selKey k l) :=
  lookupA_foldl_aggStep_none upd dflt l [] k rfl

theorem mem_selKey {α β : Type} [DecidableEq α] (k : α) (b : β)
    (l : List (α × β)) : b ∈ selKey k l ↔ (k, b) ∈ l := by
  induction l with
  | nil => simp [selKey]
  | cons kb t ih =>
      obtain ⟨k', b'⟩ := kb
      by_cases h : k' = k
      · subst h
        simp [selKey, ih]
      · simp [selKey, h, ih, Ne.symm h]

theorem selKey_ne_nil_iff {α β : Type} [DecidableEq α] (k : α)
    (l : List (α × β)) : selKey k l ≠ [] ↔ ∃ b, (k, b) ∈ l := by
  induction l with
  | nil => simp [selKey]
  | cons kb t ih =>
      obtain ⟨k', b'⟩ := kb
      by_cases h : k' = k
      · subst h
        simp only [selKey, if_pos rfl]
        constructor
        · intro _; exact ⟨b', List.mem_cons_self _ _⟩
        · intro _; exact List.cons_ne_nil _ _
      · simp [selKey, h, ih, Ne.symm h]

/-- Appending through a fold builds the mapped list. -/
theorem foldl_snoc_map {β δ : Type} (f : β → δ) :
    ∀ (bs : List β) (acc : List δ),
      bs.foldl (fun s b => s ++ [f b]) acc = acc ++ bs.map f := by
  intro bs
  induction bs with
  | nil => simp
  | cons b t ih => intro acc; simp [ih]

/-- Folding each block in turn is folding the flattened list. -/
theorem foldl_blocks_flatten {σ τ : Type} (step : σ → τ → σ) :
    ∀ (mss : List (List τ)) (a : σ),
      mss.foldl (fun s ms => ms.foldl step s) a = mss.flatten.foldl step a := by
  intro mss
  induction mss with
  | nil => simp
  | cons ms t ih => intro a; simp [ih, List.foldl_append]

/-- `aggVal` of the append-one-record update is the mapped record list. -/
theorem aggVal_snoc_map {β δ : Type} (f : β → δ) (bs : List β) :
    aggVal (fun s b => s ++ [f b]) [] bs =
      if bs.isEmpty then none else some (bs.map f) := by
  cases bs with
  | nil => simp [aggVal]
  | cons b t => simp [aggVal, foldl_snoc_map]

theorem selKey_ne_nil_iff_mem_fst {α β : Type} [DecidableEq α] (k : α)
    (l : List (α × β)) : selKey k l ≠ [] ↔ k ∈ l.map Prod.fst := by
  rw [selKey_ne_nil_iff]
  constructor
  · rintro ⟨b, hb⟩
    exact List.mem_map.2 ⟨(k, b), hb, rfl⟩
  · intro h
    rcases List.mem_map.1 h with ⟨⟨k', b⟩, hm, hk⟩
    cases hk
    exact ⟨b, hm⟩

/-- Closed form for lookup in the aggregated disk map: the series at `m` is
exactly the `(n, v * 1000)` image of the records keyed `m`. -/
theorem lookupA_diskAgg (l : DiskInput) (m : String) :
    lookupA (diskAgg l) m =
      if (selKey m l).isEmpty then none else some (diskPairs l m) := by
  rw [diskAgg, lookupA_aggBy, diskPairs]
  exact aggVal_snoc_map _ _

/-- Closed form for lookup in the aggregated diet outer map: the sub-map at
`kind` is the single-level aggregation of the concatenated measures of the
records keyed `kind`. -/
theorem lookupA_dietAgg (l : DietInput) (kind : String) :
    lookupA (dietAgg l) kind =
      if (selKey kind l).isEmpty then none
      else some (aggBy (fun s nv => s ++ [nv]) [] (selKey kind l).flatten) := by
  rw [dietAgg, lookupA_aggBy]
  cases h : selKey kind l with
  | nil => simp [aggVal]
  | cons ms t =>
      simp only [List.isEmpty_cons, aggVal, aggBy, if_neg Bool.false_ne_true]
      rw [foldl_blocks_flatten]

/-- `aggVal` of the plain append update keeps the record list itself. -/
theorem aggVal_snoc {β : Type} (bs : List β) :
    aggVal (fun s b => s ++ [b]) [] bs =
      if bs.isEmpty then none else some bs := by
  cases bs with
  | nil => simp [aggVal]
  | cons b t =>
      have h := foldl_snoc_map (fun x : β => x) (b :: t) []
      simp only [aggVal, List.isEmpty_cons, Bool.false_eq_true, if_false]
      simpa using h

/-- Closed form for the two-level diet lookup: the series at `(kind, m)` is
exactly the submitted pair list `dietPairs l kind m`. -/
theorem dietLookup_eq (l : DietInput) (kind m : String) :
    dietLookup l kind m =
      if (dietPairs l kind m).isEmpty then none
      else some (dietPairs l kind m) := by
  by_cases hsel : selKey kind l = []
  · rw [dietLookup, lookupA_dietAgg, hsel]
    have h : dietPairs l kind m = [] := by
      rw [dietPairs, hsel]
      rfl
    simp [h]
  · rw [dietLookup, lookupA_dietAgg,
      if_neg (by simpa [List.isEmpty_iff] using hsel)]
    rw [Option.some_bind, lookupA_aggBy, aggVal_snoc]
    rfl

/-- Lookup commutes with mapping a function over the entry values. -/
theorem lookupA_map_snd {α γ δ : Type} [DecidableEq α] (f : γ → δ)
    (l : List (α × γ)) (k : α) :
    lookupA (l.map fun kv => (kv.1, f kv.2)) k = (lookupA l k).map f := by
  induction l with
  | nil => simp [lookupA]
  | cons kv t ih =>
      obtain ⟨k', g⟩ := kv
      by_cases h : k' = k <;> simp [lookupA, h, ih]

/-- The final disk map holds the sorted aggregated series. -/
theorem lookupA_diskData (l : DiskInput) (m : String) :
    lookupA (diskData l) m = (lookupA (diskAgg l) m).map pySort :=
  lookupA_map_snd _ _ _

/-- The final diet map holds the sorted aggregated series. -/
theorem dietDataLookup_eq (l : DietInput) (kind m : String) :
    dietDataLookup l kind m = (dietLookup l kind m).map pySort := by
  rw [dietDataLookup, dietData, dietLookup, lookupA_map_snd]
  cases lookupA (dietAgg l) kind with
  | none => simp
  | some sub => simp [lookupA_map_snd]

/-! ## Sorting facts -/

/-- `pySort` permutes its input, is sorted under the lexicographic tuple
order, and in particular is non-decreasing in `n`. -/
theorem pySort_spec (r : Series) :
    (pySort r).Perm r ∧ List.Sorted pyLe (pySort r) ∧
      (pySort r).Pairwise (fun p q => p.1 ≤ q.1) := by
  refine ⟨List.perm_insertionSort _ _, List.sorted_insertionSort _ _, ?_⟩
  refine (List.sorted_insertionSort pyLe r).imp ?_
  intro p q hpq
  rcases hpq with h | ⟨h, _⟩
  · exact le_of_lt h
  · exact le_of_eq h

/-- Sorting a nonempty series yields a nonempty series. -/
theorem pySort_ne_nil {r : Series} (h : r ≠ []) : pySort r ≠ [] := by
  intro hc
  apply h
  have hperm := List.perm_insertionSort pyLe r
  rw [pySort] at hc
  rw [hc] at hperm
  exact (hperm.symm.eq_nil)

/-! ## Claim theorems: aggregation -/

/-- C1: for every input tuple sequence, the aggregation step builds, for
each key, a series holding exactly the `(n, value)` pairs submitted under
that key, in submission order — every submitted pair appears, none is
invented, and equal-`n` pairs stay distinct entries.  (For the disk
dataset the pair submitted to the aggregator is `(n, v * 1000)`, the
scaling being applied at ingestion.) -/
theorem c1_aggregation_exact_pairs :
    (∀ (l : DietInput) (kind m : String) (s : Series),
        dietLookup l kind m = some s → s = dietPairs l kind m) ∧
    (∀ (l : DiskInput) (m : String) (s : Series),
        lookupA (diskAgg l) m = some s → s = diskPairs l m) := by
  constructor
  · intro l kind m s h
    rw [dietLookup_eq] at h
    by_cases he : (dietPairs l kind m).isEmpty = true
    · rw [if_pos he] at h; cases h
    · rw [if_neg he] at h
      exact (Option.some.inj h).symm
  · intro l m s h
    rw [lookupA_diskAgg] at h
    by_cases he : (selKey m l).isEmpty = true
    · rw [if_pos he] at h; cases h
    · rw [if_neg he] at h
      exact (Option.some.inj h).symm

/-- Witness for C1, the diet scenario from the spec: the series under
`("monotonic-clock", "diet/add_interval")` is the two submitted pairs in
submission order. -/
theorem c1_aggregation_exact_pairs_witness :
    ([((10 : ℤ), (120 : ℚ)), (5, 60)] : Series) =
      dietPairs
        [("monotonic-clock",
          [("diet/add_interval", 10, 120), ("diet/add_interval", 5, 60)])]
        "monotonic-clock" "diet/add_interval" :=
  c1_aggregation_exact_pairs.1
    [("monotonic-clock",
      [("diet/add_interval", 10, 120), ("diet/add_interval", 5, 60)])]
    "monotonic-clock" "diet/add_interval" _ (by decide)

/-- C2 counterexample: on the diet input
`[("k", [("m", 1, 5), ("m", 1, 2)])]` the pairs are appended as
`[(1, 5), (1, 2)]`, but the sorted series is `[(1, 2), (1, 5)]`: the two
equal-`n` entries do NOT keep the relative order in which they were
appended, because `list.sort()` compares the whole `(n, value)` tuple. -/
theorem c2_counterexample :
    dietLookup ([("k", [("m", 1, 5), ("m", 1, 2)])] : DietInput) "k" "m" =
        some [(1, 5), (1, 2)] ∧
    dietDataLookup ([("k", [("m", 1, 5), ("m", 1, 2)])] : DietInput) "k" "m" =
        some [(1, 2), (1, 5)] ∧
    ([((1 : ℤ), (2 : ℚ)), (1, 5)] : Series) ≠ [(1, 5), (1, 2)] := by
  refine ⟨by decide, by decide, by decide⟩

/-- C2 (amended): after aggregation completes, every series is sorted
exactly once, under the lexicographic order of the whole `(n, value)`
tuple: the result is a permutation of the appended pairs, non-decreasing
in `n`, with equal-`n` entries ordered by value — not by append order. -/
theorem c2_sorted_once_lexicographic :
    (∀ (l : DiskInput) (m : String) (r : Series),
        lookupA (diskAgg l) m = some r →
        lookupA (diskData l) m = some (pySort r) ∧
        (pySort r).Perm r ∧ List.Sorted pyLe (pySort r) ∧
        (pySort r).Pairwise (fun p q => p.1 ≤ q.1)) ∧
    (∀ (l : DietInput) (kind m : String) (r : Series),
        dietLookup l kind m = some r →
        dietDataLookup l kind m = some (pySort r) ∧
        (pySort r).Perm r ∧ List.Sorted pyLe (pySort r) ∧
        (pySort r).Pairwise (fun p q => p.1 ≤ q.1)) := by
  constructor
  · intro l m r h
    obtain ⟨h1, h2, h3⟩ := pySort_spec r
    refine ⟨?_, h1, h2, h3⟩
    rw [lookupA_diskData, h]
    rfl
  · intro l kind m r h
    obtain ⟨h1, h2, h3⟩ := pySort_spec r
    refine ⟨?_, h1, h2, h3⟩
    rw [dietDataLookup_eq, h]
    rfl

/-- Witness for the amended C2, at the counterexample input. -/
theorem c2_sorted_once_lexicographic_witness :
    dietDataLookup ([("k", [("m", 1, 5), ("m", 1, 2)])] : DietInput) "k" "m" =
        some (pySort [(1, 5), (1, 2)]) ∧
    (pySort [(1, 5), (1, 2)]).Perm [(1, 5), (1, 2)] ∧
    List.Sorted pyLe (pySort [(1, 5), (1, 2)]) ∧
    (pySort [((1 : ℤ), (5 : ℚ)), (1, 2)]).Pairwise
      (fun p q => p.1 ≤ q.1) :=
  c2_sorted_once_lexicographic.2 [("k", [("m", 1, 5), ("m", 1, 2)])] "k" "m"
    [(1, 5), (1, 2)] (by decide)

/-- C3: a disk record `(m, n, v)` is stored as `(n, v * 1000)`, the scaling
happening exactly once at ingestion: the aggregated series at `m` is
literally the once-scaled image of the submitted records, and the sorted
series read downstream is a permutation of it (no rescaling).  Both maps
are pure functions of the input, so loading the same input again yields
the same once-scaled values. -/
theorem c3_disk_scaled_once :
    ∀ (l : DiskInput) (m : String), m ∈ l.map Prod.fst →
      lookupA (diskAgg l) m = some (diskPairs l m) ∧
      lookupA (diskData l) m = some (pySort (diskPairs l m)) ∧
      (pySort (diskPairs l m)).Perm (diskPairs l m) := by
  intro l m hm
  have hsel : selKey m l ≠ [] := (selKey_ne_nil_iff_mem_fst m l).2 hm
  have h1 : lookupA (diskAgg l) m = some (diskPairs l m) := by
    rw [lookupA_diskAgg, if_neg (by simpa [List.isEmpty_iff] using hsel)]
  refine ⟨h1, ?_, List.perm_insertionSort _ _⟩
  rw [lookupA_diskData, h1]
  rfl

/-- Witness for C3, the disk scenario from the spec: seconds 0.002 and
0.004 are stored as milliseconds 2 and 4. -/
theorem c3_disk_scaled_once_witness :
    lookupA
        (diskAgg ([("sequential.read", 1, 1/500), ("sequential.read", 2, 1/250)] :
          DiskInput)) "sequential.read" =
      some (diskPairs
        [("sequential.read", 1, 1/500), ("sequential.read", 2, 1/250)]
        "sequential.read") ∧
    lookupA
        (diskData ([("sequential.read", 1, 1/500), ("sequential.read", 2, 1/250)] :
          DiskInput)) "sequential.read" =
      some (pySort (diskPairs
        [("sequential.read", 1, 1/500), ("sequential.read", 2, 1/250)]
        "sequential.read")) ∧
    (pySort (diskPairs
        [("sequential.read", 1, 1/500), ("sequential.read", 2, 1/250)]
        "sequential.read")).Perm
      (diskPairs [("sequential.read", 1, 1/500), ("sequential.read", 2, 1/250)]
        "sequential.read") :=
  c3_disk_scaled_once
    [("sequential.read", 1, 1/500), ("sequential.read", 2, 1/250)]
    "sequential.read" (by decide)

/-- C6: querying a key absent from the aggregated map (as the composer's
`data[key]` does) deterministically fails with a `KeyError` (the script's
realization of UnknownSeriesError); it never returns an empty default
series.  Covers the disk map, the diet outer map (`data[kind]` in the
`plot` calls), and the diet sub-map (`data[key]` in `scatter`): a metric
absent under a present kind also fails. -/
theorem c6_absent_key_fails :
    (∀ (l : DiskInput) (m : String), m ∉ l.map Prod.fst →
        getItem (diskData l) m = .error .keyError) ∧
    (∀ (l : DietInput) (kind : String), kind ∉ l.map Prod.fst →
        getItem (dietData l) kind = .error .keyError) ∧
    (∀ (l : DietInput) (kind m : String) (sub : List (String × Series)),
        lookupA (dietData l) kind = some sub →
        m ∉ (selKey kind l).flatten.map Prod.fst →
        getItem sub m = .error .keyError) := by
  refine ⟨?_, ?_, ?_⟩
  · intro l m hm
    have hsel : selKey m l = [] := by
      by_contra hne
      exact hm ((selKey_ne_nil_iff_mem_fst m l).1 hne)
    have hnone : lookupA (diskData l) m = none := by
      rw [lookupA_diskData, lookupA_diskAgg, hsel]
      rfl
    simp [getItem, hnone]
  · intro l kind hk
    have hsel : selKey kind l = [] := by
      by_contra hne
      exact hk ((selKey_ne_nil_iff_mem_fst kind l).1 hne)
    have hnone : lookupA (dietData l) kind = none := by
      rw [dietData, lookupA_map_snd, lookupA_dietAgg, hsel]
      rfl
    simp [getItem, hnone]
  · intro l kind m sub hsub hm
    rw [dietData, lookupA_map_snd] at hsub
    cases hinner : lookupA (dietAgg l) kind with
    | none => rw [hinner] at hsub; cases hsub
    | some inner =>
        rw [hinner, Option.map_some'] at hsub
        have hsubeq : sub = inner.map fun mv => (mv.1, pySort mv.2) :=
          (Option.some.inj hsub).symm
        have hflat : selKey m (selKey kind l).flatten = [] := by
          by_contra hne
          exact hm ((selKey_ne_nil_iff_mem_fst m _).1 hne)
        have hinner2 : lookupA inner m = none := by
          rw [lookupA_dietAgg] at hinner
          by_cases hke : (selKey kind l).isEmpty = true
          · rw [if_pos hke] at hinner; cases hinner
          · rw [if_neg hke] at hinner
            have hie : inner =
                aggBy (fun s nv => s ++ [nv]) [] (selKey kind l).flatten :=
              (Option.some.inj hinner).symm
            rw [hie, lookupA_aggBy, hflat]
            rfl
        have hnone : lookupA sub m = none := by
          rw [hsubeq, lookupA_map_snd, hinner2]
          rfl
        simp [getItem, hnone]

/-- Witness for C6: a key that never occurs in the input raises
`KeyError` on both datasets, and so does a metric absent under a
present kind. -/
theorem c6_absent_key_fails_witness :
    getItem (diskData ([("a", 1, 2)] : DiskInput)) "b" =
        .error .keyError ∧
    getItem (dietData ([("a", [("m", 1, 2)])] : DietInput)) "b" =
        .error .keyError ∧
    getItem [("m", pySort [((1 : ℤ), (2 : ℚ))])] "x" = .error .keyError :=
  ⟨c6_absent_key_fails.1 [("a", 1, 2)] "b" (by decide),
   c6_absent_key_fails.2.1 [("a", [("m", 1, 2)])] "b" (by decide),
   c6_absent_key_fails.2.2 [("a", [("m", 1, 2)])] "a" "x"
      [("m", pySort [((1 : ℤ), (2 : ℚ))])] (by rfl) (by decide)⟩

/-- C8: the key set of the aggregated map is exactly the set of keys
observed in the input — a key is present iff some record bears it, so no
key is invented.  Stated for the diet outer map (kinds), the diet
two-level lookup (metrics within a kind), and the disk map (metrics). -/
theorem c8_key_set_exactly_observed :
    (∀ (l : DietInput) (kind : String),
        lookupA (dietAgg l) kind ≠ none ↔ kind ∈ l.map Prod.fst) ∧
    (∀ (l : DietInput) (kind m : String),
        dietLookup l kind m ≠ none ↔
          m ∈ ((selKey kind l).flatten.map Prod.fst)) ∧
    (∀ (l : DiskInput) (m : String),
        lookupA (diskAgg l) m ≠ none ↔ m ∈ l.map Prod.fst) := by
  refine ⟨?_, ?_, ?_⟩
  · intro l kind
    rw [lookupA_dietAgg, ← selKey_ne_nil_iff_mem_fst]
    by_cases h : selKey kind l = [] <;> simp [h, List.isEmpty_iff]
  · intro l kind m
    rw [dietLookup_eq, ← selKey_ne_nil_iff_mem_fst]
    by_cases h : dietPairs l kind m = []
    · have h' : selKey m (selKey kind l).flatten = [] := h
      simp [h, h', List.isEmpty_iff]
    · have h' : selKey m (selKey kind l).flatten ≠ [] := h
      simp [h, h', List.isEmpty_iff]
  · intro l m
    rw [lookupA_diskAgg, ← selKey_ne_nil_iff_mem_fst]
    by_cases h : selKey m l = [] <;> simp [h, List.isEmpty_iff]

/-- C9: every series present in the final aggregated (and sorted) map is
non-empty: a key is only created in the same step that appends a pair to
its series, so resolving any present key yields at least one point. -/
theorem c9_present_series_nonempty :
    (∀ (l : DietInput) (kind m : String) (s : Series),
        dietDataLookup l kind m = some s → s ≠ []) ∧
    (∀ (l : DiskInput) (m : String) (s : Series),
        lookupA (diskData l) m = some s → s ≠ []) := by
  constructor
  · intro l kind m s h
    rw [dietDataLookup_eq] at h
    cases hr : dietLookup l kind m with
    | none => rw [hr] at h; cases h
    | some r =>
        rw [hr, Option.map_some'] at h
        have hs : s = pySort r := (Option.some.inj h).symm
        rw [dietLookup_eq] at hr
        by_cases he : (dietPairs l kind m).isEmpty = true
        · rw [if_pos he] at hr; cases hr
        · rw [if_neg he] at hr
          have hrp : r = dietPairs l kind m := (Option.some.inj hr).symm
          have hne : r ≠ [] := by
            rw [hrp]
            intro hc
            exact he (by simp [hc])
          rw [hs]
          exact pySort_ne_nil hne
  · intro l m s h
    rw [lookupA_diskData] at h
    cases hr : lookupA (diskAgg l) m with
    | none => rw [hr] at h; cases h
    | some r =>
        rw [hr, Option.map_some'] at h
        have hs : s = pySort r := (Option.some.inj h).symm
        rw [lookupA_diskAgg] at hr
        by_cases he : (selKey m l).isEmpty = true
        · rw [if_pos he] at hr; cases hr
        · rw [if_neg he] at hr
          have hrp : r = diskPairs l m := (Option.some.inj hr).symm
          have hne : r ≠ [] := by
            rw [hrp, diskPairs]
            intro hc
            rw [List.map_eq_nil_iff] at hc
            exact he (by simp [hc])
          rw [hs]
          exact pySort_ne_nil hne

/-- Witness for C9, at the C2 counterexample input and a one-record disk
input. -/
theorem c9_present_series_nonempty_witness :
    ([((1 : ℤ), (2 : ℚ)), (1, 5)] : Series) ≠ [] ∧
    (pySort (diskPairs [("a", 1, 2)] "a")) ≠ [] :=
  ⟨c9_present_series_nonempty.1 [("k", [("m", 1, 5), ("m", 1, 2)])] "k" "m"
      [(1, 2), (1, 5)] (by decide),
   c9_present_series_nonempty.2 [("a", 1, 2)] "a"
      (pySort (diskPairs [("a", 1, 2)] "a"))
      (by rw [lookupA_diskData, lookupA_diskAgg]; rfl)⟩

/-! ## Lemmas about the regression fit -/

theorem sum_map_linear (a b : ℚ) (pts : List (ℚ × ℚ)) :
    (pts.map fun p => a * p.1 + b).sum =
      a * (pts.map Prod.fst).sum + pts.length * b := by
  induction pts with
  | nil => simp
  | cons p t ih =>
      simp only [List.map_cons, List.sum_cons, ih, List.length_cons]
      push_cast
      ring

theorem sum_map_mul_left_q (c : ℚ) (f : ℚ × ℚ → ℚ) (l : List (ℚ × ℚ)) :
    (l.map fun p => c * f p).sum = c * (l.map f).sum := by
  induction l with
  | nil => simp
  | cons p t ih =>
      simp only [List.map_cons, List.sum_cons, ih]
      ring

theorem sum_map_const_q (c : ℚ) (l : List (ℚ × ℚ)) :
    (l.map fun _ => c).sum = l.length * c := by
  induction l with
  | nil => simp
  | cons p t ih =>
      simp only [List.map_cons, List.sum_cons, ih, List.length_cons]
      push_cast
      ring

theorem sum_nonneg_q (l : List ℚ) (h : ∀ x ∈ l, 0 ≤ x) : 0 ≤ l.sum := by
  induction l with
  | nil => simp
  | cons y t ih =>
      simp only [List.sum_cons]
      have hy : 0 ≤ y := h y (List.mem_cons_self _ _)
      have ht : 0 ≤ t.sum := ih fun x hx => h x (List.mem_cons_of_mem _ hx)
      linarith

theorem mem_le_sum_of_nonneg (l : List ℚ) (h : ∀ x ∈ l, 0 ≤ x) :
    ∀ x ∈ l, x ≤ l.sum := by
  induction l with
  | nil => simp
  | cons y t ih =>
      intro x hx
      simp only [List.sum_cons]
      rcases List.mem_cons.1 hx with rfl | hxt
      · have ht : 0 ≤ t.sum :=
          sum_nonneg_q t fun z hz => h z (List.mem_cons_of_mem _ hz)
        linarith
      · have hxs : x ≤ t.sum :=
          ih (fun z hz => h z (List.mem_cons_of_mem _ hz)) x hxt
        have hy : 0 ≤ y := h y (List.mem_cons_self _ _)
        linarith

/-- On a sample whose points lie on the line `y = a * x + b`, the mean of
`y` is the line evaluated at the mean of `x`. -/
theorem lfMeanY_on_line (pts : List (ℚ × ℚ)) (a b : ℚ) (hne : pts ≠ [])
    (hline : ∀ p ∈ pts, p.2 = a * p.1 + b) :
    lfMeanY pts = a * lfMeanX pts + b := by
  have hk : (pts.length : ℚ) ≠ 0 := by
    have : pts.length ≠ 0 := fun hc => hne (List.length_eq_zero.1 hc)
    exact_mod_cast this
  have hmap : pts.map Prod.snd = pts.map fun p => a * p.1 + b :=
    List.map_congr_left fun p hp => hline p hp
  rw [lfMeanY, hmap, sum_map_linear, lfMeanX]
  field_simp
  ring

/-- The feature variance is positive as soon as two feature values
differ. -/
theorem lfSxx_pos (pts : List (ℚ × ℚ))
    (hvar : ∃ p ∈ pts, ∃ q ∈ pts, p.1 ≠ q.1) : 0 < lfSxx pts := by
  obtain ⟨p, hp, q, hq, hpq⟩ := hvar
  have hone : p.1 ≠ lfMeanX pts ∨ q.1 ≠ lfMeanX pts := by
    by_contra hc
    push_neg at hc
    exact hpq (hc.1.trans hc.2.symm)
  have key : ∀ r ∈ pts, r.1 ≠ lfMeanX pts → 0 < lfSxx pts := by
    intro r hr hrne
    have hmem : (r.1 - lfMeanX pts) ^ 2 ∈
        pts.map fun s => (s.1 - lfMeanX pts) ^ 2 :=
      List.mem_map_of_mem _ hr
    have hpos : 0 < (r.1 - lfMeanX pts) ^ 2 := by
      have : r.1 - lfMeanX pts ≠ 0 := sub_ne_zero_of_ne hrne
      positivity
    have hle : (r.1 - lfMeanX pts) ^ 2 ≤ lfSxx pts := by
      rw [lfSxx]
      exact mem_le_sum_of_nonneg _ (by
        intro x hx
        rcases List.mem_map.1 hx with ⟨s, _, rfl⟩
        positivity) _ hmem
    linarith
  rcases hone with h | h
  · exact key p hp h
  · exact key q hq h

/-- On a sample on the line `y = a * x + b`, the cross moment is `a`
times the second moment. -/
theorem lfSxy_on_line (pts : List (ℚ × ℚ)) (a b : ℚ) (hne : pts ≠ [])
    (hline : ∀ p ∈ pts, p.2 = a * p.1 + b) :
    lfSxy pts = a * lfSxx pts := by
  have hybar := lfMeanY_on_line pts a b hne hline
  have hmap : (pts.map fun p => (p.1 - lfMeanX pts) * (p.2 - lfMeanY pts)) =
      pts.map fun p => a * (p.1 - lfMeanX pts) ^ 2 := by
    refine List.map_congr_left fun p hp => ?_
    rw [hline p hp, hybar]
    ring
  rw [lfSxy, hmap, sum_map_mul_left_q, lfSxx]

/-! ## Claim theorems: regression fit -/

/-- C4 counterexample: on the single-point series `[(5, 3)]` — which has
fewer than 2 points and all `n` identical — the fit does NOT fail: sklearn
returns slope 0 and intercept 3 (the minimum-norm least-squares solution),
with no error raised. -/
theorem c4_counterexample :
    linfit [((5 : ℚ), (3 : ℚ))] = some (0, 3) ∧
    linfit [((5 : ℚ), (3 : ℚ))] ≠ none := by
  have h : linfit [((5 : ℚ), (3 : ℚ))] = some (0, 3) := by
    norm_num [linfit, lfSlope, lfSxx, lfSxy, lfMeanX, lfMeanY]
  exact ⟨h, by rw [h]; exact fun hc => Option.noConfusion hc⟩

/-- C4 (amended): the fit fails only on an empty series.  On any nonempty
series whose `n` are all identical — including single-point series — it
does not raise and does not divide by zero: the zero-variance case takes
the minimum-norm branch, yielding slope 0 and intercept the mean value
(exact rational arithmetic, so no NaN can arise). -/
theorem c4_degenerate_fit_succeeds :
    ∀ (pts : List (ℚ × ℚ)), pts ≠ [] →
      (∀ p ∈ pts, ∀ q ∈ pts, p.1 = q.1) →
      linfit pts = some (0, (pts.map Prod.snd).sum / pts.length) := by
  intro pts hne hconst
  obtain ⟨p₀, hp₀⟩ : ∃ p, p ∈ pts := List.exists_mem_of_ne_nil pts hne
  have hk : (pts.length : ℚ) ≠ 0 := by
    have : pts.length ≠ 0 := fun hc => hne (List.length_eq_zero.1 hc)
    exact_mod_cast this
  have hx : ∀ p ∈ pts, p.1 = p₀.1 := fun p hp => hconst p hp p₀ hp₀
  have hxbar : lfMeanX pts = p₀.1 := by
    have hmap : pts.map Prod.fst = pts.map fun _ => p₀.1 :=
      List.map_congr_left fun p hp => hx p hp
    rw [lfMeanX, hmap, sum_map_const_q]
    field_simp
  have hsxx : lfSxx pts = 0 := by
    have hmap : (pts.map fun p => (p.1 - lfMeanX pts) ^ 2) =
        pts.map fun _ => (0 : ℚ) := by
      refine List.map_congr_left fun p hp => ?_
      rw [hxbar, hx p hp]
      ring
    rw [lfSxx, hmap, sum_map_const_q]
    ring
  have hslope : lfSlope pts = 0 := by rw [lfSlope, if_pos hsxx]
  rw [linfit, if_neg hne, hslope, lfMeanY]
  norm_num

/-- Witness for the amended C4: a two-point series with both points at
`n = 5` fits successfully with slope 0 and intercept the mean `5`. -/
theorem c4_degenerate_fit_succeeds_witness :
    linfit [((5 : ℚ), (3 : ℚ)), (5, 7)] =
      some (0, ([((5 : ℚ), (3 : ℚ)), (5, 7)].map Prod.snd).sum /
        ([((5 : ℚ), (3 : ℚ)), (5, 7)] : List (ℚ × ℚ)).length) :=
  c4_degenerate_fit_succeeds [((5 : ℚ), (3 : ℚ)), (5, 7)]
    (by decide) (by decide)

/-- C7: on a series of at least 2 points lying exactly on `y = a * x + b`
with not all `x` equal, the ordinary-least-squares fit recovers the slope
`a` and intercept `b` exactly (in the exact rational model; exactness
implies recovery within any relative tolerance, in particular 1e-9). -/
theorem c7_ols_exact_recovery :
    ∀ (pts : List (ℚ × ℚ)) (a b : ℚ),
      2 ≤ pts.length →
      (∃ p ∈ pts, ∃ q ∈ pts, p.1 ≠ q.1) →
      (∀ p ∈ pts, p.2 = a * p.1 + b) →
      linfit pts = some (a, b) := by
  intro pts a b hlen hvar hline
  have hne : pts ≠ [] := by
    intro hc
    rw [hc] at hlen
    simp at hlen
  have hsxx := lfSxx_pos pts hvar
  have hsxy := lfSxy_on_line pts a b hne hline
  have hybar := lfMeanY_on_line pts a b hne hline
  have hslope : lfSlope pts = a := by
    rw [lfSlope, if_neg (ne_of_gt hsxx), hsxy]
    field_simp
  rw [linfit, if_neg hne, hslope, hybar]
  ring_nf

/-- Witness for C7: the two points `(0, 1)` and `(1, 3)` lie on
`y = 2x + 1`, and the fit returns slope 2 and intercept 1. -/
theorem c7_ols_exact_recovery_witness :
    linfit [((0 : ℚ), (1 : ℚ)), (1, 3)] = some (2, 1) :=
  c7_ols_exact_recovery [((0 : ℚ), (1 : ℚ)), (1, 3)] 2 1
    (by decide) (by decide)
    (by intro p hp; fin_cases hp <;> norm_num)

/-! ## Lemmas about the JSON-level load loops -/

/-- If some element of the list makes the step fail regardless of the
accumulated state, the monadic fold over the list fails. -/
theorem foldlM_error_of_mem {σ : Type} (step : σ → J → Except PyErr σ) :
    ∀ (l : List J) (acc : σ),
      (∃ x ∈ l, ∀ s, ∃ e, step s x = .error e) →
      ∃ e, l.foldlM step acc = .error e := by
  intro l
  induction l with
  | nil =>
      intro acc h
      rcases h with ⟨x, hx, _⟩
      simp at hx
  | cons y t ih =>
      intro acc h
      rcases h with ⟨x, hx, hstep⟩
      rw [List.foldlM_cons]
      cases heq : step acc y with
      | error e => exact ⟨e, rfl⟩
      | ok a =>
          rcases List.mem_cons.1 hx with rfl | hxt
          · rcases hstep acc with ⟨e, he⟩
            rw [heq] at he
            cases he
          · rcases ih a ⟨x, hxt, hstep⟩ with ⟨e, he⟩
            exact ⟨e, he⟩

/-- A diet record that does not unpack into two items fails the whole
step, whatever the map state. -/
theorem dietStepJ_error_of_unpack2 (data : DietMapJ) (rec : J) (e : PyErr)
    (h : unpack2 rec = .error e) : dietStepJ data rec = .error e := by
  unfold dietStepJ
  rw [h]
  rfl

/-- A disk record that does not unpack into three items fails the whole
step, whatever the map state. -/
theorem diskStepJ_error_of_unpack3 (data : DiskMapJ) (rec : J) (e : PyErr)
    (h : unpack3 rec = .error e) : diskStepJ data rec = .error e := by
  unfold diskStepJ
  rw [h]
  rfl

/-- An inner diet measure that does not unpack into three items fails the
inner step, whatever the sub-map state. -/
theorem dietInnerStepJ_error_of_unpack3 (sub : List (J × List (J × J)))
    (mrec : J) (e : PyErr) (h : unpack3 mrec = .error e) :
    dietInnerStepJ sub mrec = .error e := by
  unfold dietInnerStepJ
  rw [h]
  rfl

/-- `Except`'s bind on a success passes the value to the continuation. -/
theorem exceptOk_bind {α β : Type} (a : α) (f : α → Except PyErr β) :
    (Except.ok a >>= f) = f a :=
  rfl

/-- A diet record whose measures contain a measure that does not unpack
into three items fails the whole step, whatever the map state (either the
kind is unhashable, or the inner loop reaches the bad measure). -/
theorem dietStepJ_error_of_inner (data : DietMapJ) (r kind measures : J)
    (ms : List J) (mr : J)
    (hu : unpack2 r = .ok (kind, measures))
    (hms : pyIter measures = some ms)
    (hmr : mr ∈ ms) (he : unpack3 mr = .error .valueError) :
    ∃ e, dietStepJ data r = .error e := by
  have hstep : dietStepJ data r =
      if pyHashable kind then
        (ms.foldlM dietInnerStepJ ((lookupMapJ data kind).getD [])) >>= fun sub =>
          Except.ok (updMapJ (fun _ => sub) [] data kind)
      else .error .typeError := by
    unfold dietStepJ
    rw [hu]
    simp only [exceptOk_bind, hms]
  by_cases hh : pyHashable kind = true
  · rcases foldlM_error_of_mem dietInnerStepJ ms ((lookupMapJ data kind).getD [])
        ⟨mr, hmr, fun sub =>
          ⟨.valueError, dietInnerStepJ_error_of_unpack3 sub mr _ he⟩⟩ with ⟨e, hfold⟩
    refine ⟨e, ?_⟩
    rw [hstep, if_pos hh, hfold]
    rfl
  · exact ⟨.typeError, by rw [hstep, if_neg hh]⟩

/-! ## Claim theorems: parsing -/

/-- C5 counterexample: a diet document whose record carries a non-numeric
`n` (the string `"x"`) and a non-numeric value (the string `"y"`) is
accepted by the load loop without any error — the parser does not fail on
non-numeric `n`/value, contrary to the claim. -/
theorem c5_counterexample :
    dietLoadJ (J.arr [J.arr [J.str "k",
        J.arr [J.arr [J.str "m", J.str "x", J.str "y"]]]]) =
      .ok [(J.str "k", [(J.str "m", [(J.str "x", J.str "y")])])] := by
  rfl

/-- C5 (amended): the load loops check only the sequence shape: a tuple of
the wrong arity at either level — a top-level record of the diet or disk
form, or an inner `(metric, n, value)` measure of the diet form — fails
the run (Python's unpacking `ValueError`), but `n` and the value are
never type-checked — a record with non-numeric `n` and value (here `null`
and `true`) parses successfully. -/
theorem c5_arity_checked_types_not :
    (∀ recs : List J, (∃ r ∈ recs, unpack2 r = .error .valueError) →
        ∃ e, dietLoadJ (J.arr recs) = .error e) ∧
    (∀ recs : List J,
        (∃ r ∈ recs, ∃ kind measures : J, ∃ ms : List J, ∃ mr ∈ ms,
            unpack2 r = .ok (kind, measures) ∧ pyIter measures = some ms ∧
            unpack3 mr = .error .valueError) →
        ∃ e, dietLoadJ (J.arr recs) = .error e) ∧
    (∀ recs : List J, (∃ r ∈ recs, unpack3 r = .error .valueError) →
        ∃ e, diskLoadJ (J.arr recs) = .error e) ∧
    dietLoadJ (J.arr [J.arr [J.str "k",
        J.arr [J.arr [J.str "m", J.null, J.bool true]]]]) =
      .ok [(J.str "k", [(J.str "m", [(J.null, J.bool true)])])] := by
  refine ⟨?_, ?_, ?_, by rfl⟩
  · rintro recs ⟨r, hr, hu⟩
    exact foldlM_error_of_mem dietStepJ recs []
      ⟨r, hr, fun s => ⟨.valueError, dietStepJ_error_of_unpack2 s r _ hu⟩⟩
  · rintro recs ⟨r, hr, kind, measures, ms, mr, hmr, hu, hms, he⟩
    exact foldlM_error_of_mem dietStepJ recs []
      ⟨r, hr, fun s => dietStepJ_error_of_inner s r kind measures ms mr hu hms hmr he⟩
  · rintro recs ⟨r, hr, hu⟩
    exact foldlM_error_of_mem diskStepJ recs []
      ⟨r, hr, fun s => ⟨.valueError, diskStepJ_error_of_unpack3 s r _ hu⟩⟩

/-- Witness for the amended C5: a document holding one empty-array record
fails both load loops, and a diet document whose inner measure `[1]` has
the wrong arity fails too. -/
theorem c5_arity_checked_types_not_witness :
    (∃ e, dietLoadJ (J.arr [J.arr []]) = .error e) ∧
    (∃ e, dietLoadJ (J.arr [J.arr [J.str "k", J.arr [J.arr [J.num 1]]]]) =
        .error e) ∧
    (∃ e, diskLoadJ (J.arr [J.arr []]) = .error e) :=
  ⟨c5_arity_checked_types_not.1 [J.arr []]
      ⟨J.arr [], List.mem_singleton_self _, rfl⟩,
   c5_arity_checked_types_not.2.1 [J.arr [J.str "k", J.arr [J.arr [J.num 1]]]]
      ⟨J.arr [J.str "k", J.arr [J.arr [J.num 1]]], List.mem_singleton_self _,
        J.str "k", J.arr [J.arr [J.num 1]], [J.arr [J.num 1]],
        J.arr [J.num 1], List.mem_singleton_self _, rfl, rfl, rfl⟩,
   c5_arity_checked_types_not.2.2.1 [J.arr []]
      ⟨J.arr [], List.mem_singleton_self _, rfl⟩⟩

/-- C10: feeding a flat-form document (whose first record is a
three-element array `[metric, n, value]`) to the diet load loop fails
immediately while decoding that first record — `[kind, measures] = rec`
raises a `ValueError` ("too many values to unpack") — so no aggregated
map is ever produced, whatever the remaining records are. -/
theorem c10_flat_form_rejected_by_diet_loader (a b c : J) (rest : List J) :
    dietLoadJ (J.arr (J.arr [a, b, c] :: rest)) = .error .valueError := by
  show (J.arr [a, b, c] :: rest).foldlM dietStepJ [] = .error .valueError
  rw [List.foldlM_cons, dietStepJ_error_of_unpack2 [] (J.arr [a, b, c]) .valueError rfl]
  rfl
